import Mathlib

/-!
Shallow embedding of the hashtag-formatting logic of src/post_generator.py,
namely the functions parse_hashtags and add_hashtags, together with proofs
of the specification claims about them.

Modelling conventions:
* a Python str is a List Char, one entry per code point, so Python len is
  List.length;
* the ASCII whitespace characters recognised by the no-argument str.split
  and by str.strip are modelled by isPySpace;
* the Python set of strings handed to add_hashtags is modelled by the list
  of its elements in the arbitrary, unspecified order in which repeated
  set.pop calls return them; every theorem quantifying over that list
  therefore covers every possible pop order;
* TypeError and ValueError become the two constructors of PyErr, and a
  function that can raise returns an Except PyErr value;
* dynamically typed arguments are modelled by PyVal.
-/

/-- ASCII whitespace as recognised by the no-argument split and by strip in
Python; the model is restricted to the ASCII range. -/
def isPySpace (c : Char) : Bool :=
  c == ' ' || c == '\t' || c == '\n' || c == '\r' || c == '\x0b' || c == '\x0c'

/-- Accumulator version of the no-argument Python split: split on runs of
whitespace, dropping empty tokens. -/
def pySplitWsAux : List Char → List Char → List (List Char)
  | [], acc => if acc = [] then [] else [acc]
  | c :: cs, acc =>
    if isPySpace c then
      if acc = [] then pySplitWsAux cs [] else acc :: pySplitWsAux cs []
    else
      pySplitWsAux cs (acc ++ [c])

/-- Python split with no argument. -/
def pySplitWs (s : List Char) : List (List Char) :=
  pySplitWsAux s []

/-- Accumulator version of Python split on a comma; empty pieces are kept. -/
def pySplitCommaAux : List Char → List Char → List (List Char)
  | [], acc => [acc]
  | c :: cs, acc =>
    if c = ',' then acc :: pySplitCommaAux cs [] else pySplitCommaAux cs (acc ++ [c])

/-- Python split on a comma. -/
def pySplitComma (s : List Char) : List (List Char) :=
  pySplitCommaAux s []

/-- Python strip: remove leading and trailing whitespace. -/
def pyStrip (s : List Char) : List Char :=
  ((s.dropWhile isPySpace).reverse.dropWhile isPySpace).reverse

/-- Python removeprefix with the hash character: remove one leading hash if
present. -/
def pyRemovePrefixHash : List Char → List Char
  | [] => []
  | c :: cs => if c = '#' then cs else c :: cs

/-- Python startswith with the hash character. -/
def pyStartsWithHash : List Char → Bool
  | [] => false
  | c :: _ => c == '#'

/-- Python replace of a space by the empty string: removes every space
character, and only spaces; other whitespace such as tabs is kept. -/
def pyRemoveSpaces (s : List Char) : List Char :=
  s.filter (fun c => c != ' ')

/-- Error kinds raised by the two functions. -/
inductive PyErr where
  | typeError
  | valueError
deriving DecidableEq

instance {ε α : Type} [DecidableEq ε] [DecidableEq α] : DecidableEq (Except ε α)
  | .ok a, .ok b =>
    if h : a = b then .isTrue (by rw [h])
    else .isFalse (fun hc => h (Except.ok.inj hc))
  | .ok _, .error _ => .isFalse (fun hc => Except.noConfusion hc)
  | .error _, .ok _ => .isFalse (fun hc => Except.noConfusion hc)
  | .error e, .error f =>
    if h : e = f then .isTrue (by rw [h])
    else .isFalse (fun hc => h (Except.error.inj hc))

/-- Function parse_hashtags from src/post_generator.py, on a genuine string
argument; the dynamic type check lives in parse_hashtagsDyn. Empty input
returns the empty set before the mode is even looked at, then the three
modes are dispatched, and any other mode raises ValueError. -/
def parse_hashtags (string : List Char) (format : String) :
    Except PyErr (Finset (List Char)) :=
  if string = [] then .ok ∅
  else if format = "comma" then
    .ok (((pySplitComma string).map (fun v => '#' :: pyRemoveSpaces v)).toFinset)
  else if format = "space" then
    .ok (((pySplitWs string).map
      (fun v => '#' :: pyRemovePrefixHash (pyStrip v))).toFinset)
  else if format = "hash" then
    .ok ((((pySplitWs string).filter
      (fun v => pyStartsWithHash v)).map pyStrip).toFinset)
  else .error .valueError

/-- Dynamically typed Python values, as far as the two functions inspect
them. -/
inductive PyVal where
  | pyStr : List Char → PyVal
  | pyInt : Int → PyVal
  | pySet : List (List Char) → PyVal
  | pyNone : PyVal
deriving DecidableEq

/-- Test performed by isinstance against str. -/
def isStrVal : PyVal → Bool
  | .pyStr _ => true
  | _ => false

/-- Test performed by isinstance against set. -/
def isSetVal : PyVal → Bool
  | .pySet _ => true
  | _ => false

/-- Function parse_hashtags with its leading dynamic type check: a
non-string first argument raises TypeError before anything else happens. -/
def parse_hashtagsDyn (v : PyVal) (format : String) :
    Except PyErr (Finset (List Char)) :=
  match v with
  | .pyStr s => parse_hashtags s format
  | _ => .error .typeError

/-- Function add_hashtags from src/post_generator.py. The set argument is
given as the list of its elements in pop order; the function returns the
final text together with the elements still sitting in the set when the
loop ends. One loop iteration pops the next element; if the fit test
passes, a space and the element are appended and the loop continues,
otherwise the loop breaks, leaving the not-yet-popped elements in the
set. -/
def add_hashtags (text : List Char) (hashtags : List (List Char)) (lim : Int) :
    List Char × List (List Char) :=
  match hashtags with
  | [] => (text, [])
  | ht :: rest =>
    if (text.length : Int) + ht.length + 1 < lim then
      add_hashtags (text ++ ' ' :: ht) rest lim
    else
      (text, rest)

/-- Function add_hashtags with its leading dynamic type checks, in source
order: text is checked to be a string first, then hashtags to be a set. -/
def add_hashtagsDyn (text hashtags : PyVal) (lim : Int) :
    Except PyErr (List Char × List (List Char)) :=
  match text with
  | .pyStr t =>
    match hashtags with
    | .pySet hs => .ok (add_hashtags t hs lim)
    | _ => .error .typeError
  | _ => .error .typeError

/-- Number of loop iterations, that is pop calls, performed by
add_hashtags. -/
def add_steps (text : List Char) (hashtags : List (List Char)) (lim : Int) : Nat :=
  match hashtags with
  | [] => 0
  | ht :: rest =>
    if (text.length : Int) + ht.length + 1 < lim then
      add_steps (text ++ ' ' :: ht) rest lim + 1
    else 1

/-- Number of elements add_hashtags actually appends to the text. -/
def add_kept (text : List Char) (hashtags : List (List Char)) (lim : Int) : Nat :=
  match hashtags with
  | [] => 0
  | ht :: rest =>
    if (text.length : Int) + ht.length + 1 < lim then
      add_kept (text ++ ' ' :: ht) rest lim + 1
    else 0

/-- Fold appending a separating space and an element for each list entry. -/
def appendAll (text : List Char) (pre : List (List Char)) : List Char :=
  pre.foldl (fun acc h => acc ++ ' ' :: h) text

/-- Concatenation of a list of character blocks. -/
def joinBlocks : List (List Char) → List Char
  | [] => []
  | b :: bs => b ++ joinBlocks bs

/-- Number of leading hash characters of a token. -/
def countLeadingHash (s : List Char) : Nat :=
  (s.takeWhile (fun c => c == '#')).length

/-- Result set of an extraction that succeeded; the empty set on error. -/
def okSet : Except PyErr (Finset (List Char)) → Finset (List Char)
  | .ok s => s
  | .error _ => ∅

/-- Spec-side definition of comma mode, following the words of section 4.1 of
the spec: split on commas, remove all internal whitespace from each piece,
then prefix a hash. Compared against parse_hashtags for claim C5. -/
def specCommaSet (s : List Char) : Finset (List Char) :=
  ((pySplitComma s).map (fun v => '#' :: v.filter (fun c => !isPySpace c))).toFinset

/-- Comma mode as the amended claim words it: only space characters are
removed from each piece. -/
def specCommaSetSpaces (s : List Char) : Finset (List Char) :=
  ((pySplitComma s).map (fun v => '#' :: v.filter (fun c => c != ' '))).toFinset

/-! ### Helper lemmas about the add_hashtags loop -/

lemma add_snd_eq_drop (t : List Char) (hs : List (List Char)) (l : Int) :
    (add_hashtags t hs l).2 = hs.drop (add_steps t hs l) := by
  induction hs generalizing t with
  | nil => simp [add_hashtags, add_steps]
  | cons ht rest ih =>
    by_cases h : (t.length : Int) + ht.length + 1 < l
    · simp [add_hashtags, add_steps, h, ih]
    · simp [add_hashtags, add_steps, h]

lemma add_steps_le (t : List Char) (hs : List (List Char)) (l : Int) :
    add_steps t hs l ≤ hs.length := by
  induction hs generalizing t with
  | nil => simp [add_steps]
  | cons ht rest ih =>
    by_cases h : (t.length : Int) + ht.length + 1 < l
    · simp only [add_steps, if_pos h, List.length_cons]
      exact Nat.succ_le_succ (ih _)
    · simp only [add_steps, if_neg h, List.length_cons]
      omega

lemma add_fst_eq_take (t : List Char) (hs : List (List Char)) (l : Int) :
    (add_hashtags t hs l).1 = appendAll t (hs.take (add_kept t hs l)) := by
  induction hs generalizing t with
  | nil => simp [add_hashtags, add_kept, appendAll]
  | cons ht rest ih =>
    by_cases h : (t.length : Int) + ht.length + 1 < l
    · simp only [add_hashtags, add_kept, if_pos h, List.take_succ_cons]
      rw [ih]
      rfl
    · simp [add_hashtags, add_kept, h, appendAll]

lemma appendAll_eq_blocks (pre : List (List Char)) (t : List Char) :
    appendAll t pre = t ++ joinBlocks (pre.map (fun h => ' ' :: h)) := by
  induction pre generalizing t with
  | nil => simp [appendAll, joinBlocks]
  | cons b bs ih =>
    have h1 : appendAll t (b :: bs) = appendAll (t ++ ' ' :: b) bs := rfl
    rw [h1, ih]
    simp [joinBlocks, List.append_assoc]

lemma add_fst_overlong (t : List Char) (hs : List (List Char)) (l : Int)
    (h : l ≤ (t.length : Int)) : (add_hashtags t hs l).1 = t := by
  cases hs with
  | nil => rfl
  | cons ht rest =>
    have hno : ¬ ((t.length : Int) + ht.length + 1 < l) := by omega
    simp [add_hashtags, hno]

/-! ### Helper lemmas about tokenisation -/

lemma pySplitWsAux_no_ws (l : List Char) :
    ∀ acc, (∀ c ∈ acc, isPySpace c = false) →
      ∀ t ∈ pySplitWsAux l acc, ∀ c ∈ t, isPySpace c = false := by
  induction l with
  | nil =>
    intro acc hacc t ht c hc
    by_cases h : acc = []
    · simp [pySplitWsAux, h] at ht
    · simp only [pySplitWsAux, if_neg h, List.mem_singleton] at ht
      subst ht
      exact hacc c hc
  | cons a as ih =>
    intro acc hacc t ht c hc
    by_cases hsp : isPySpace a
    · by_cases h : acc = []
      · simp only [pySplitWsAux, if_pos hsp, if_pos h] at ht
        exact ih [] (by simp) t ht c hc
      · simp only [pySplitWsAux, if_pos hsp, if_neg h, List.mem_cons] at ht
        rcases ht with rfl | ht
        · exact hacc c hc
        · exact ih [] (by simp) t ht c hc
    · simp only [pySplitWsAux, if_neg hsp] at ht
      refine ih (acc ++ [a]) ?_ t ht c hc
      intro x hx
      rcases List.mem_append.1 hx with hx | hx
      · exact hacc x hx
      · simp only [List.mem_singleton] at hx
        subst hx
        simpa using hsp

lemma dropWhile_no_ws (t : List Char) (h : ∀ c ∈ t, isPySpace c = false) :
    t.dropWhile isPySpace = t := by
  cases t with
  | nil => rfl
  | cons c cs => simp [List.dropWhile, h c (by simp)]

lemma pyStrip_no_ws (t : List Char) (h : ∀ c ∈ t, isPySpace c = false) :
    pyStrip t = t := by
  unfold pyStrip
  rw [dropWhile_no_ws t h, dropWhile_no_ws, List.reverse_reverse]
  intro c hc
  exact h c (List.mem_reverse.1 hc)

lemma map_pyStrip_id (l : List (List Char)) (h : ∀ t ∈ l, pyStrip t = t) :
    l.map pyStrip = l := by
  induction l with
  | nil => rfl
  | cons x xs ih =>
    simp only [List.map_cons]
    rw [h x (List.mem_cons_self x xs), ih (fun t ht => h t (List.mem_cons_of_mem x ht))]

/-! ### Helper lemmas about leading hashes -/

lemma countLeadingHash_cons (c : Char) (l : List Char) :
    countLeadingHash (c :: l) =
      if c == '#' then countLeadingHash l + 1 else 0 := by
  by_cases h : c == '#'
  · simp [countLeadingHash, List.takeWhile_cons, h]
  · simp [countLeadingHash, List.takeWhile_cons, h]

lemma countLeadingHash_after (v : List Char) (h : countLeadingHash v ≤ 1) :
    countLeadingHash ('#' :: pyRemovePrefixHash v) = 1 := by
  cases v with
  | nil => decide
  | cons c cs =>
    by_cases hc : c = '#'
    · subst hc
      have h1 : countLeadingHash ('#' :: cs) = countLeadingHash cs + 1 := by
        simp [countLeadingHash_cons]
      have h0 : countLeadingHash cs = 0 := by omega
      have h2 : pyRemovePrefixHash ('#' :: cs) = cs := by simp [pyRemovePrefixHash]
      rw [h2, countLeadingHash_cons]
      simp [h0]
    · have h2 : pyRemovePrefixHash (c :: cs) = c :: cs := by
        simp [pyRemovePrefixHash, hc]
      rw [h2, countLeadingHash_cons, countLeadingHash_cons]
      simp [hc]

/-! ### Claims about add_hashtags -/

/-- C1, counterexample: the claim says the hashtag set is empty after every
call; but with text Hello, the two-element set holding #a and #b and limit
1, the loop pops one element, rejects it and breaks, leaving the other
element in the set — under either of the two possible pop orders. -/
theorem add_hashtags_not_always_empty :
    (add_hashtags "Hello".data [ "#a".data, "#b".data ] 1).2 = [ "#b".data ] ∧
    (add_hashtags "Hello".data [ "#b".data, "#a".data ] 1).2 = [ "#a".data ] := by
  decide

/-- C1, amended: after the call the set holds exactly the elements the loop
never popped, namely the suffix of the pop order left after add_steps pops;
in particular the set is nonempty, not empty, whenever the loop stopped
before popping every element. Only when every element was popped does the
set end empty. -/
theorem add_hashtags_remaining_set (t : List Char) (hs : List (List Char))
    (l : Int) :
    (add_hashtags t hs l).2 = hs.drop (add_steps t hs l) ∧
    (add_steps t hs l < hs.length → (add_hashtags t hs l).2 ≠ []) := by
  refine ⟨add_snd_eq_drop t hs l, ?_⟩
  intro hlt hnil
  rw [add_snd_eq_drop t hs l] at hnil
  have hlen : (hs.drop (add_steps t hs l)).length = hs.length - add_steps t hs l :=
    List.length_drop _ _
  rw [hnil] at hlen
  simp only [List.length_nil] at hlen
  omega

/-- C1, witness for the amended theorem at a concrete early stop. -/
theorem add_hashtags_remaining_set_witness :
    add_steps "Hello".data [ "#a".data, "#b".data ] 1 <
      ([ "#a".data, "#b".data ] : List (List Char)).length ∧
    (add_hashtags "Hello".data [ "#a".data, "#b".data ] 1).2 ≠ [] :=
  ⟨by decide,
   (add_hashtags_remaining_set "Hello".data [ "#a".data, "#b".data ] 1).2 (by decide)⟩

/-- C2, counterexample: with the positive limit 1 and the already over-long
text Hello the function returns the text unchanged, so the result length is
not strictly below the limit; the claim fails without an assumption on the
initial text length. -/
theorem add_hashtags_length_limit_cex :
    ((0 : Int) < 1) ∧
    ¬ (((add_hashtags "Hello".data [ "#a".data ] 1).1.length : Int) < 1) := by
  decide

/-- C2, amended: whenever the initial text is strictly shorter than the
limit, the returned string also is; the append test is the strict
inequality on length plus tag length plus one, so the result never reaches
the limit (the witness shows it can reach limit minus one). -/
theorem add_hashtags_length_lt_limit (t : List Char) (hs : List (List Char))
    (l : Int) (h : (t.length : Int) < l) :
    ((add_hashtags t hs l).1.length : Int) < l := by
  induction hs generalizing t with
  | nil => simpa [add_hashtags] using h
  | cons ht rest ih =>
    by_cases hf : (t.length : Int) + ht.length + 1 < l
    · simp only [add_hashtags, if_pos hf]
      refine ih (t ++ ' ' :: ht) ?_
      have hlen : (t ++ ' ' :: ht).length = t.length + (ht.length + 1) := by
        simp [List.length_append]
      rw [hlen]
      push_cast
      omega
    · simpa [add_hashtags, hf] using h

/-- C2, witness: a five-character text with limit 11 and one four-character
tag; the result has length 10, which is limit minus one and below the
limit. -/
theorem add_hashtags_length_lt_limit_witness :
    (("Hello".data.length : Int) < 11) ∧
    (((add_hashtags "Hello".data [ "#abc".data ] 11).1.length : Int) < 11) ∧
    (add_hashtags "Hello".data [ "#abc".data ] 11).1.length = 10 :=
  ⟨by decide,
   add_hashtags_length_lt_limit "Hello".data [ "#abc".data ] 11 (by decide),
   by decide⟩

/-- C8: the loop terminates — add_hashtags is a total structurally
recursive function — after at most as many iterations as the set has
elements, and each iteration removes exactly one element, so the elements
still in the set and the iterations performed always add up to the original
size. -/
theorem add_hashtags_step_count (t : List Char) (hs : List (List Char))
    (l : Int) :
    add_steps t hs l ≤ hs.length ∧
    (add_hashtags t hs l).2.length + add_steps t hs l = hs.length := by
  refine ⟨add_steps_le t hs l, ?_⟩
  have h1 : add_steps t hs l ≤ hs.length := add_steps_le t hs l
  rw [add_snd_eq_drop, List.length_drop]
  omega

/-- C9: whenever the loop stopped early — that is, some pop was rejected,
which is exactly when the pops counted by add_steps exceed the appends
counted by add_kept — the pop order decomposes into the elements that were
popped and appended, then the one popped element that failed the fit test
against the final text and was neither appended nor put back, and then
exactly the never-popped elements, which are what the set still holds,
possibly none when the rejected element was the last one; so at most one
element per call is consumed without being appended. -/
theorem add_hashtags_rejected_element (t : List Char) (hs : List (List Char))
    (l : Int) (h : add_kept t hs l < add_steps t hs l) :
    ∃ pre ht, hs = pre ++ ht :: (add_hashtags t hs l).2 ∧
      (add_hashtags t hs l).1 = appendAll t pre ∧
      ¬ (((add_hashtags t hs l).1.length : Int) + ht.length + 1 < l) := by
  induction hs generalizing t with
  | nil => simp [add_kept, add_steps] at h
  | cons ht rest ih =>
    by_cases hf : (t.length : Int) + ht.length + 1 < l
    · have hr : add_hashtags t (ht :: rest) l = add_hashtags (t ++ ' ' :: ht) rest l := by
        simp [add_hashtags, hf]
      have hk : add_kept (t ++ ' ' :: ht) rest l < add_steps (t ++ ' ' :: ht) rest l := by
        simp only [add_kept, add_steps, if_pos hf] at h
        omega
      rw [hr]
      obtain ⟨pre, ht2, hdec, hfst, hrej⟩ := ih (t ++ ' ' :: ht) hk
      refine ⟨ht :: pre, ht2, ?_, hfst, hrej⟩
      rw [List.cons_append]
      exact congrArg (List.cons ht) hdec
    · have hr : add_hashtags t (ht :: rest) l = (t, rest) := by
        simp [add_hashtags, hf]
      rw [hr]
      exact ⟨[], ht, by simp, rfl, by simpa using hf⟩

/-- C9, witness at the boundary early stop where the rejected element was
the last one popped: with text Hello, the one-element pop order #a and
limit 1, the single pop is rejected, nothing is appended or restored, and
the set ends empty. -/
theorem add_hashtags_rejected_element_witness :
    add_kept "Hello".data [ "#a".data ] 1 < add_steps "Hello".data [ "#a".data ] 1 ∧
    (∃ pre ht,
      ([ "#a".data ] : List (List Char)) =
        pre ++ ht :: (add_hashtags "Hello".data [ "#a".data ] 1).2 ∧
      (add_hashtags "Hello".data [ "#a".data ] 1).1 =
        appendAll "Hello".data pre ∧
      ¬ (((add_hashtags "Hello".data [ "#a".data ] 1).1.length : Int) +
          ht.length + 1 < 1)) :=
  ⟨by decide,
   add_hashtags_rejected_element "Hello".data [ "#a".data ] 1 (by decide)⟩

/-- C10: the returned string is the input text followed by zero or more
blocks, each a single space followed by one element drawn from a prefix of
the pop order of the set; and a text already at or over the limit is
returned entirely unchanged, never truncated. -/
theorem add_hashtags_result_shape (t : List Char) (hs : List (List Char))
    (l : Int) :
    ((l ≤ (t.length : Int)) → (add_hashtags t hs l).1 = t) ∧
    ∃ pre post, hs = pre ++ post ∧
      (add_hashtags t hs l).1 = t ++ joinBlocks (pre.map (fun h => ' ' :: h)) := by
  refine ⟨fun h => add_fst_overlong t hs l h, ?_⟩
  refine ⟨hs.take (add_kept t hs l), hs.drop (add_kept t hs l),
    (List.take_append_drop _ _).symm, ?_⟩
  rw [add_fst_eq_take, appendAll_eq_blocks]

/-- C10, witness at a concrete over-long call: limit 3 is at most the
length of Hello, so the text comes back unchanged, and the block
decomposition is exhibited. -/
theorem add_hashtags_result_shape_witness :
    (add_hashtags "Hello".data [ "#a".data ] 3).1 = "Hello".data ∧
    ∃ pre post, ([ "#a".data ] : List (List Char)) = pre ++ post ∧
      (add_hashtags "Hello".data [ "#a".data ] 3).1 =
        "Hello".data ++ joinBlocks (pre.map (fun h => ' ' :: h)) :=
  ⟨(add_hashtags_result_shape "Hello".data [ "#a".data ] 3).1 (by decide),
   (add_hashtags_result_shape "Hello".data [ "#a".data ] 3).2⟩

/-! ### Claims about parse_hashtags -/

/-- C3, counterexample: the claim says every element of space mode starts
with exactly one hash, but a token that starts with two hashes has only one
removed before prefixing, so the element keeps two leading hashes. -/
theorem space_mode_double_hash_cex :
    "##a".data ∈ okSet (parse_hashtags "##a".data "space") ∧
    countLeadingHash "##a".data ≠ 1 := by
  decide

/-- C3, amended: space mode tokens are stripped, lose a single leading hash
if present and gain a hash; whenever no whitespace token of the input
starts with two hashes, every element of the result starts with exactly one
hash. -/
theorem space_mode_single_hash (s : List Char)
    (h : ∀ v ∈ pySplitWs s, countLeadingHash v ≤ 1) :
    ∀ e ∈ okSet (parse_hashtags s "space"), countLeadingHash e = 1 := by
  intro e he
  by_cases hnil : s = []
  · subst hnil
    simp [parse_hashtags, okSet] at he
  · unfold parse_hashtags at he
    rw [if_neg hnil, if_neg (by decide), if_pos rfl] at he
    simp only [okSet, List.mem_toFinset, List.mem_map] at he
    obtain ⟨v, hv, rfl⟩ := he
    have hws : ∀ c ∈ v, isPySpace c = false :=
      pySplitWsAux_no_ws s [] (by simp) v hv
    rw [pyStrip_no_ws v hws]
    exact countLeadingHash_after v (h v hv)

/-- C3, witness for the amended theorem on a two-token input whose tokens
carry at most one leading hash. -/
theorem space_mode_single_hash_witness :
    (∀ v ∈ pySplitWs "#a b".data, countLeadingHash v ≤ 1) ∧
    (∀ e ∈ okSet (parse_hashtags "#a b".data "space"), countLeadingHash e = 1) :=
  ⟨by decide, space_mode_single_hash "#a b".data (by decide)⟩

/-- C4, counterexample: the claim says an unsupported mode raises
ValueError for every string, including the empty one; but the empty-input
check runs before mode validation, so the empty string returns the empty
set even for a bogus mode. -/
theorem bad_mode_empty_string_cex :
    ( "bogus" ≠ "comma" ∧ "bogus" ≠ "space" ∧ "bogus" ≠ "hash" ) ∧
    parse_hashtags [] "bogus" = .ok ∅ ∧
    parse_hashtags [] "bogus" ≠ .error .valueError := by
  refine ⟨by decide, rfl, by decide⟩

/-- C4, amended: for every nonempty input string, any mode outside comma,
space and hash raises ValueError; the empty string instead returns the
empty set whatever the mode. -/
theorem bad_mode_value_error (s : List Char) (format : String)
    (h0 : s ≠ []) (h1 : format ≠ "comma") (h2 : format ≠ "space")
    (h3 : format ≠ "hash") :
    parse_hashtags s format = .error .valueError := by
  unfold parse_hashtags
  rw [if_neg h0, if_neg h1, if_neg h2, if_neg h3]

/-- C4, witness at a one-character string and the bogus mode. -/
theorem bad_mode_value_error_witness :
    (['x'] : List Char) ≠ [] ∧
    parse_hashtags ['x'] "bogus" = .error .valueError :=
  ⟨by decide,
   bad_mode_value_error ['x'] "bogus" (by decide) (by decide) (by decide) (by decide)⟩

/-- C5, counterexample: the claim equates comma mode with splitting on
commas and removing all internal whitespace; it fails at the empty string,
where the code returns the empty set while the split of the empty string
still yields one empty piece, and at the input a-tab-b, where the code
keeps the tab because only space characters are replaced. -/
theorem comma_mode_spec_cex :
    parse_hashtags [] "comma" ≠ .ok (specCommaSet []) ∧
    parse_hashtags [ 'a', '\t', 'b' ] "comma" ≠
      .ok (specCommaSet [ 'a', '\t', 'b' ]) := by
  decide

/-- C5, amended: for every nonempty string, comma mode equals the set
obtained by splitting on commas and prefixing a hash to each piece with all
internal space characters, and only spaces, removed; a piece already
starting with a hash yields a double hash, preserved as is. -/
theorem comma_mode_characterization (s : List Char) (h : s ≠ []) :
    parse_hashtags s "comma" = .ok (specCommaSetSpaces s) := by
  unfold parse_hashtags specCommaSetSpaces pyRemoveSpaces
  rw [if_neg h, if_pos rfl]

/-- C5, witness at a one-character string. -/
theorem comma_mode_characterization_witness :
    (['a'] : List Char) ≠ [] ∧
    parse_hashtags ['a'] "comma" = .ok (specCommaSetSpaces ['a']) :=
  ⟨by decide, comma_mode_characterization ['a'] (by decide)⟩

/-- C6: hash mode returns exactly the whitespace-split tokens of the input
that already start with a hash, each kept verbatim — the strip performed by
the code is the identity on tokens, which contain no whitespace — and the
tokens without a leading hash are dropped. -/
theorem hash_mode_filter_tokens (s : List Char) :
    parse_hashtags s "hash" =
      .ok (((pySplitWs s).filter (fun v => pyStartsWithHash v)).toFinset) := by
  by_cases h : s = []
  · subst h
    decide
  · unfold parse_hashtags
    rw [if_neg h, if_neg (by decide), if_neg (by decide), if_pos rfl]
    have hmap : ((pySplitWs s).filter (fun v => pyStartsWithHash v)).map pyStrip =
        (pySplitWs s).filter (fun v => pyStartsWithHash v) := by
      refine map_pyStrip_id _ ?_
      intro t ht
      exact pyStrip_no_ws t
        (pySplitWsAux_no_ws s [] (by simp) t (List.mem_of_mem_filter ht))
    rw [hmap]

/-- C7: both functions validate argument types before any other work: a
non-string first argument makes parse_hashtags raise TypeError whatever the
mode, and a non-string text or a non-set hashtags argument makes
add_hashtags raise TypeError, its arguments being returned untouched in the
model. -/
theorem type_error_on_bad_args (v tv hsv : PyVal) (format : String) (lim : Int) :
    (isStrVal v = false → parse_hashtagsDyn v format = .error .typeError) ∧
    (isStrVal tv = false → add_hashtagsDyn tv hsv lim = .error .typeError) ∧
    (isSetVal hsv = false → add_hashtagsDyn tv hsv lim = .error .typeError) := by
  refine ⟨?_, ?_, ?_⟩
  · intro h
    cases v <;> simp_all [parse_hashtagsDyn, isStrVal]
  · intro h
    cases tv <;> simp_all [add_hashtagsDyn, isStrVal]
  · intro h
    cases tv <;> cases hsv <;> simp_all [add_hashtagsDyn, isSetVal]

/-- C7, witness: the integer 123 fed to parse_hashtags, and an integer text
or an integer hashtags argument fed to add_hashtags, all raise
TypeError. -/
theorem type_error_on_bad_args_witness :
    parse_hashtagsDyn (.pyInt 123) "comma" = .error .typeError ∧
    add_hashtagsDyn (.pyInt 0) (.pySet []) 10 = .error .typeError ∧
    add_hashtagsDyn (.pyStr ['t']) (.pyInt 5) 10 = .error .typeError :=
  ⟨(type_error_on_bad_args (.pyInt 123) (.pyInt 0) (.pySet []) "comma" 10).1 (by decide),
   (type_error_on_bad_args (.pyInt 123) (.pyInt 0) (.pySet []) "comma" 10).2.1 (by decide),
   (type_error_on_bad_args (.pyInt 123) (.pyStr ['t']) (.pyInt 5) "comma" 10).2.2 (by decide)⟩
